import Mathlib

/-!
Verification of the qapsula_gpt2 RAG core against its specification.

The Python source is shallowly embedded: Python strings become `List Char`
(so that slicing with negative indices, `rfind` and `strip` keep their
Python semantics), floats become `ℚ`, a Python method that can raise
becomes a function into `Except String _`, and the `while` loop of
`DocumentIngestor._chunk_text` becomes a fuel-indexed recursion (`none`
means the fuel ran out, which is how non-termination of the source loop
manifests).
-/

namespace Qapsula

/-! ### Python string primitives -/

/-- Python strings are modelled as lists of characters. -/
abbrev PyStr := List Char

/-- Effective index of a Python slice bound: negative indices count from the
end and everything is clamped into `[0, len]`. -/
def sliceIdx (len : Nat) (i : Int) : Nat :=
  if i < 0 then ((len : Int) + i).toNat else min i.toNat len

/-- Python `s[a:b]`. -/
def pySlice (s : PyStr) (a b : Int) : PyStr :=
  (s.take (sliceIdx s.length b)).drop (sliceIdx s.length a)

/-- Python `s.rfind(c)`: index of the last occurrence of `c`, `-1` if absent. -/
def rfind (s : PyStr) (c : Char) : Int :=
  match s with
  | [] => -1
  | x :: xs =>
    let r := rfind xs c
    if 0 ≤ r then r + 1 else if x = c then 0 else -1

/-- The whitespace characters stripped by Python `str.strip()`. -/
def isPySpace (c : Char) : Bool :=
  c == ' ' || c == '\t' || c == '\n' || c == '\r' || c == '\x0b' || c == '\x0c'

/-- Python `s.strip()`. -/
def pyStrip (s : PyStr) : PyStr :=
  ((s.dropWhile isPySpace).reverse.dropWhile isPySpace).reverse

/-! ### `DocumentIngestor._chunk_text` (app/rag/rag_ingest.py) -/

/-- One iteration of the chunking loop body up to the `append`: from the
cursor `start`, build the window `text[start:start+chunk_size]`, and when the
window ends before the text does, look for the last sentence-terminating `'.'`
or `'\n'`; if that split point lies past the window's midpoint, truncate the
chunk there.  Returns the chunk (before `strip`) and the effective `end`. -/
def chunkWindow (text : PyStr) (chunk_size : Nat) (start : Int) : PyStr × Int :=
  let endI : Int := start + chunk_size
  let chunk := pySlice text start endI
  if endI < (text.length : Int) then
    let split_point := max (rfind chunk '.') (rfind chunk '\n')
    if split_point > ((chunk_size / 2 : Nat) : Int) then
      (pySlice chunk 0 (split_point + 1), start + split_point + 1)
    else (chunk, endI)
  else (chunk, endI)

/-- The `while start < text_len` loop of `_chunk_text`, with fuel.  Each
iteration appends `chunk.strip()` and sets `start = end - overlap`.
`none` means the fuel was exhausted before the loop finished. -/
def chunkTextAux (text : PyStr) (chunk_size overlap : Nat) :
    Nat → Int → Option (List PyStr)
  | 0, _ => none
  | fuel + 1, start =>
    if start < (text.length : Int) then
      let w := chunkWindow text chunk_size start
      match chunkTextAux text chunk_size overlap fuel (w.2 - overlap) with
      | none => none
      | some rest => some (pyStrip w.1 :: rest)
    else some []

/-- Instrumented variant of the same loop that records the raw (pre-`strip`)
chunk together with the effective `end` of its window. -/
def chunkRawAux (text : PyStr) (chunk_size overlap : Nat) :
    Nat → Int → Option (List (PyStr × Int))
  | 0, _ => none
  | fuel + 1, start =>
    if start < (text.length : Int) then
      let w := chunkWindow text chunk_size start
      match chunkRawAux text chunk_size overlap fuel (w.2 - overlap) with
      | none => none
      | some rest => some (w :: rest)
    else some []

/-- Model of `DocumentIngestor._chunk_text(text, chunk_size, overlap)`, run with fuel
`text.length + 1` (enough for any terminating run whose cursor advances by at
least one character per iteration). -/
def chunkText (text : PyStr) (chunk_size overlap : Nat) : Option (List PyStr) :=
  chunkTextAux text chunk_size overlap (text.length + 1) 0

/-- The raw windows of `_chunk_text`, with the same fuel. -/
def chunkRaw (text : PyStr) (chunk_size overlap : Nat) : Option (List (PyStr × Int)) :=
  chunkRawAux text chunk_size overlap (text.length + 1) 0

/-- The chunking loop terminates on the given input: some finite fuel
suffices. -/
def chunkTerminates (text : PyStr) (chunk_size overlap : Nat) : Prop :=
  ∃ fuel, (chunkTextAux text chunk_size overlap fuel 0).isSome

/-- Concatenation of chunks with the overlap region removed: the first chunk
in full, every later chunk with its first `overlap` characters dropped. -/
def joinOverlap (overlap : Nat) : List PyStr → PyStr
  | [] => []
  | c :: rest => c ++ (rest.map (List.drop overlap)).flatten

/-! ### Data model (app/schemas/schemas_init.py) -/

/-- The `Document` schema: content, metadata (a string-keyed mapping) and an optional
embedding assigned at index time.  Floats are modelled as rationals. -/
structure Document where
  content : String
  metadata : List (String × String)
  embedding : Option (List ℚ) := none
deriving DecidableEq

/-- The `RAGResponse` schema: answer text, de-duplicated source list, confidence. -/
structure RAGResponse where
  answer : String
  sources : List String
  confidence : ℚ
deriving DecidableEq

/-- A chat-history entry (`role`, `content`). -/
abbrev ChatMsg := String × String

/-- The embedding capability (`OpenAIEmbeddings.aembed_query`): may fail with
a backend error. -/
abbrev EmbedFn := String → Except String (List ℚ)

/-! ### `FAISSVectorStore` (app/vectorstore/vectorstore_faiss.py) -/

/-- Squared L2 distance, the metric of `faiss.IndexFlatL2`. -/
def sqDist (u v : List ℚ) : ℚ :=
  (List.zipWith (fun a b => (a - b) * (a - b)) u v).sum

/-- Strict ordering used by the index: smaller distance first, ties broken by
insertion order. -/
def distBefore (a b : Nat × ℚ) : Prop :=
  a.2 < b.2 ∨ (a.2 = b.2 ∧ a.1 ≤ b.1)

instance : DecidableRel distBefore := fun a b => by
  unfold distBefore; infer_instance

/-- Insert into a distance-sorted list, keeping earlier indices first among
equal distances. -/
def insertByDist (x : Nat × ℚ) : List (Nat × ℚ) → List (Nat × ℚ)
  | [] => [x]
  | y :: ys => if distBefore x y then x :: y :: ys else y :: insertByDist x ys

/-- Sort index/distance pairs, nearest first. -/
def sortByDist : List (Nat × ℚ) → List (Nat × ℚ)
  | [] => []
  | x :: xs => insertByDist x (sortByDist xs)

/-- The distance of every stored vector to the query vector, paired with its
insertion index. -/
def distList (vectors : List (List ℚ)) (q : List ℚ) : List (Nat × ℚ) :=
  (List.range vectors.length).map fun i => (i, sqDist q (vectors.getD i []))

/-- Model of `faiss.IndexFlatL2.search`: the `k` nearest stored vectors, nearest first,
ties broken by insertion order, as (index, distance) pairs. -/
def faissSearch (vectors : List (List ℚ)) (q : List ℚ) (k : Nat) : List (Nat × ℚ) :=
  (sortByDist (distList vectors q)).take k

/-- The `FAISSVectorStore` state: a FAISS index (the list of stored vectors, in
insertion order) plus the parallel list of stored documents. -/
structure FAISSVectorStore where
  vectors : List (List ℚ)
  documents : List Document

/-- Python `index.ntotal`. -/
def FAISSVectorStore.ntotal (s : FAISSVectorStore) : Nat := s.vectors.length

/-- Model of `FAISSVectorStore.similarity_search`: empty index returns `[]` before any
embedding call; otherwise embed the query (which may fail), clamp `k` to the
index size, search, and convert each distance to `1 / (1 + distance)`,
skipping any index not backed by a stored document. -/
def FAISSVectorStore.similaritySearch (s : FAISSVectorStore) (embed : EmbedFn)
    (query : String) (k : Nat) : Except String (List (Document × ℚ)) :=
  if s.ntotal = 0 then .ok []
  else
    match embed query with
    | .error e => .error e
    | .ok qe =>
      let k := min k s.ntotal
      .ok ((faissSearch s.vectors qe k).filterMap fun p =>
        match s.documents.get? p.1 with
        | some doc => some (doc, 1 / (1 + p.2))
        | none => none)

/-! ### `Retriever` (app/rag/rag_retriever.py) -/

/-- Python `k or default`: `None` and `0` both fall back to the default. -/
def pyOrNat : Option Nat → Nat → Nat
  | none, d => d
  | some 0, d => d
  | some (n + 1), _ => n + 1

structure Retriever where
  vectorstore : FAISSVectorStore
  top_k : Nat

/-- Model of `Retriever.retrieve`: delegate to `similarity_search` with
`k = k or self.top_k`. -/
def Retriever.retrieve (r : Retriever) (embed : EmbedFn) (query : String)
    (k : Option Nat) : Except String (List (Document × ℚ)) :=
  r.vectorstore.similaritySearch embed query (pyOrNat k r.top_k)

/-- Model of `Retriever.retrieve_with_threshold`: keep the retrieved results whose
score is at least the threshold, preserving order. -/
def Retriever.retrieveWithThreshold (r : Retriever) (embed : EmbedFn)
    (query : String) (threshold : ℚ) (k : Option Nat) :
    Except String (List (Document × ℚ)) :=
  match r.retrieve embed query k with
  | .error e => .error e
  | .ok results => .ok (results.filter fun ds => decide (threshold ≤ ds.2))

/-! ### `Generator` (app/rag/rag_generator.py) and the LLM backends -/

/-- Python `doc.metadata.get('source', 'Unknown')`. -/
def getSource (d : Document) : String :=
  (d.metadata.lookup "source").getD "Unknown"

/-- One numbered source block of `Generator._create_rag_prompt`. -/
def sourceBlock (i : Nat) (d : Document) : String :=
  "[Источник " ++ toString i ++ "]\n" ++ d.content ++ "\n"

/-- Model of `Generator._create_rag_prompt`: the query alone when there is no context,
otherwise the numbered source blocks followed by the question and the fixed
instructions. -/
def createRagPrompt (query : String) (documents : List (Document × ℚ)) : String :=
  if documents.isEmpty then query
  else
    let parts := documents.enum.map fun p => sourceBlock (p.1 + 1) p.2.1
    let context := String.intercalate "\n" parts
    "На основе следующего контекста ответь на вопрос пользователя.\n\nКонтекст:\n"
      ++ context ++ "\n\nВопрос: " ++ query
      ++ "\n\nИнструкции:\n- Используй информацию из контекста для ответа\n- Если в контексте нет информации для ответа, скажи об этом\n- Отвечай на русском языке\n- Будь кратким и точным\n\nОтвет:"

/-- An LLM binding as the `Generator` sees it: `generate(prompt, context,
max_tokens) -> str`.  The two API-backed implementations in the source catch
every backend failure and return a string, so the type is total. -/
structure Generator where
  llm : String → List ChatMsg → Nat → String

/-- Model of `Generator.generate`: build the RAG prompt and delegate with
`max_tokens=1000`. -/
def Generator.generate (g : Generator) (query : String)
    (documents : List (Document × ℚ)) (chat_history : List ChatMsg) : String :=
  g.llm (createRagPrompt query documents) chat_history 1000

/-- Model of `Generator.generate_without_context`: delegate with the bare query. -/
def Generator.generateWithoutContext (g : Generator) (query : String)
    (chat_history : List ChatMsg) : String :=
  g.llm query chat_history 1000

/-- A LangChain-style message as built by `OpenAILLM._prepare_messages`. -/
structure LCMessage where
  role : String
  content : String
deriving DecidableEq

/-- Model of `OpenAILLM._prepare_messages`: system instruction, then the history
(unknown roles dropped), then the prompt as a user message. -/
def prepareMessages (prompt : String) (context : List ChatMsg) : List LCMessage :=
  (⟨"system", "Ты полезный AI ассистент. Отвечай на русском языке кратко и по существу."⟩ :
      LCMessage) ::
    (context.filterMap fun m =>
      if m.1 = "user" then some ⟨"user", m.2⟩
      else if m.1 = "assistant" then some ⟨"assistant", m.2⟩
      else none)
    ++ [⟨"user", prompt⟩]

/-- Model of `OpenAILLM.generate`: call the backend inside `try`; on any backend
failure, return the error rendered as a literal answer string.  The result
type is `String` — the failure is not distinguishable from an answer. -/
def openAIGenerate (backend : List LCMessage → Except String String)
    (prompt : String) (context : List ChatMsg) : String :=
  match backend (prepareMessages prompt context) with
  | .ok r => r
  | .error e => "Ошибка при генерации ответа: " ++ e

/-! ### `RAGPipeline` (app/rag/rag_pipeline.py) -/

/-- Which generator operation a `query` run invoked. -/
inductive GenCall where
  | grounded
  | ungrounded
deriving DecidableEq

/-- The `for doc, score in documents` loop collecting first-seen sources and
the total confidence. -/
def sourcesStep (st : List String × ℚ) (ds : Document × ℚ) : List String × ℚ :=
  let source := getSource ds.1
  (if source ∈ st.1 then st.1 else st.1 ++ [source], st.2 + ds.2)

structure RAGPipeline where
  retriever : Retriever
  generator : Generator
  use_rag_threshold : ℚ

/-- Model of `RAGPipeline.query`, instrumented with the list of generator invocations
(in order).  `use_rag = false` short-circuits to the ungrounded path; an
empty threshold-retrieval result falls back to the ungrounded path; otherwise
the grounded path computes the mean score and the first-seen source list. -/
def RAGPipeline.query (p : RAGPipeline) (embed : EmbedFn) (question : String)
    (chat_history : List ChatMsg) (use_rag : Bool) (top_k : Nat) :
    Except String (RAGResponse × List GenCall) :=
  if use_rag = false then
    .ok (⟨p.generator.generateWithoutContext question chat_history, [], 0⟩,
      [.ungrounded])
  else
    match p.retriever.retrieveWithThreshold embed question p.use_rag_threshold
        (some top_k) with
    | .error e => .error e
    | .ok documents =>
      if documents.isEmpty then
        .ok (⟨p.generator.generateWithoutContext question chat_history, [], 0⟩,
          [.ungrounded])
      else
        let answer := p.generator.generate question documents chat_history
        let acc := documents.foldl sourcesStep ([], 0)
        .ok (⟨answer, acc.1, acc.2 / (documents.length : ℚ)⟩, [.grounded])

/-! ### `RAGManager` (app/core/rag_manager.py) -/

/-- A tenant's pipeline as the registry sees it: the Python object identity
(a fresh id per construction) and the documents its vector store was built
from. -/
structure TenantPipeline where
  instanceId : Nat
  indexedDocs : List String
deriving DecidableEq

/-- The tenant's on-disk state: the persisted vector store (if any) and the
files in its `documents` directory. -/
structure TenantDisk where
  savedIndex : Option (List String)
  docFiles : List String
deriving DecidableEq

/-- The registry: the tenant → pipeline cache plus a counter supplying fresh
object identities. -/
structure RAGManager where
  pipelines : List (String × TenantPipeline)
  nextId : Nat
deriving DecidableEq

/-- Model of `RAGManager._initialize_vectorstore`: load the persisted index when one
exists; otherwise ingest the documents directory and, when it was non-empty,
persist the result. -/
def initVectorstore (disk : TenantDisk) : List String × TenantDisk :=
  match disk.savedIndex with
  | some saved => (saved, disk)
  | none =>
    if disk.docFiles.isEmpty then ([], disk)
    else (disk.docFiles, { disk with savedIndex := some disk.docFiles })

/-- Model of `RAGManager.initialize_tenant`: return the cached pipeline unchanged when
one exists and `force_reload` is false; otherwise build the vector store from
disk, construct a fresh pipeline and register it. -/
def initTenant (m : RAGManager) (disk : TenantDisk) (tenant_id : String)
    (force_reload : Bool) : TenantPipeline × RAGManager × TenantDisk :=
  match m.pipelines.lookup tenant_id, force_reload with
  | some p, false => (p, m, disk)
  | _, _ =>
    let built := initVectorstore disk
    let p : TenantPipeline := ⟨m.nextId, built.1⟩
    (p, ⟨(tenant_id, p) :: m.pipelines.filter (fun kv => !(kv.1 == tenant_id)),
      m.nextId + 1⟩, built.2)

/-- Model of `RAGManager.reload_tenant`: discard the tenant's instances, then
`initialize_tenant(..., force_reload=True)`. -/
def reloadTenant (m : RAGManager) (disk : TenantDisk) (tenant_id : String) :
    TenantPipeline × RAGManager × TenantDisk :=
  initTenant
    ⟨m.pipelines.filter (fun kv => !(kv.1 == tenant_id)), m.nextId⟩
    disk tenant_id true

/-- Ingestion between two registry calls, seen from the registry: a new file
appears in the tenant's documents directory. -/
def addDocFile (disk : TenantDisk) (f : String) : TenantDisk :=
  { disk with docFiles := disk.docFiles ++ [f] }

/-! ### Specification-side definitions -/

/-- De-duplication keeping the first occurrence of each element, in
first-seen order (the spec's description of `RAGAnswer.sources`). -/
def dedupFirstSeen : List String → List String
  | [] => []
  | x :: xs => x :: dedupFirstSeen (xs.filter fun y => y != x)
termination_by l => l.length
decreasing_by
  simp only [List.length_cons]
  exact Nat.lt_succ_of_le (List.length_filter_le _ _)

/-- The accumulator form of first-seen de-duplication, as the pipeline's
loop computes it. -/
def dedupAccum (acc : List String) : List String → List String
  | [] => acc
  | x :: xs => dedupAccum (if x ∈ acc then acc else acc ++ [x]) xs

instance {ε α : Type} [DecidableEq ε] [DecidableEq α] : DecidableEq (Except ε α) :=
  fun x y =>
    match x, y with
    | .ok a, .ok b => decidable_of_iff (a = b) (by simp)
    | .error a, .error b => decidable_of_iff (a = b) (by simp)
    | .ok _, .error _ => isFalse (by simp)
    | .error _, .ok _ => isFalse (by simp)

/-! ### Concrete fixtures used by witnesses and counterexamples -/

/-- A stored document with a `source` metadata entry. -/
def docA : Document := ⟨"Python — язык программирования", [("source", "python.txt")], none⟩

/-- A second stored document. -/
def docB : Document := ⟨"Машинное обучение — раздел ИИ", [("source", "ml.txt")], none⟩

/-- An index holding two one-dimensional vectors. -/
def storeW : FAISSVectorStore := ⟨[[0], [2]], [docA, docB]⟩

/-- An index holding zero documents. -/
def storeEmpty : FAISSVectorStore := ⟨[], []⟩

/-- An embedding capability that always succeeds with the vector `[0]`. -/
def embedW : EmbedFn := fun _ => .ok [0]

/-- An embedding capability that always fails. -/
def embedFail : EmbedFn := fun _ => .error "embedding backend failure"

/-- A generation capability that echoes its prompt. -/
def genEcho : Generator := ⟨fun prompt _ _ => prompt⟩

/-- A retriever over `storeW` with `top_k = 3`. -/
def retrW : Retriever := ⟨storeW, 3⟩

/-- A pipeline over `storeW` with threshold `1/2`. -/
def pipeW : RAGPipeline := ⟨retrW, genEcho, 1/2⟩

/-- A pipeline over the empty index. -/
def pipeEmpty : RAGPipeline := ⟨⟨storeEmpty, 3⟩, genEcho, 1/2⟩

/-- A generation capability with a fixed answer. -/
def genConst : Generator := ⟨fun _ _ _ => "ответ"⟩

/-- A text on which the chunking loop cycles forever for
`chunk_size = 10, overlap = 9`: the sentence split sends the cursor to
`7 - 9 = -2`, and Python's negative slicing then walks it back to `0`. -/
def loopText : PyStr := "aaaaaa.aaaa".data

/-- A text whose interior double space is dropped by `chunk.strip()` when it
falls at a chunk boundary (`chunk_size = 4, overlap = 0`). -/
def stripText : PyStr := "ab  cdef".data

/-- A short sentence-bearing text for the chunking witnesses. -/
def sentText : PyStr := "ab. cd".data

/-- A pipeline over `storeW` with the constant generator. -/
def pipeC : RAGPipeline := ⟨retrW, genConst, 1/2⟩

/-! ## Theorems -/

/-! ### Helper lemmas about the index search -/

theorem insertByDist_perm (x : Nat × ℚ) (l : List (Nat × ℚ)) :
    (insertByDist x l).Perm (x :: l) := by
  induction l with
  | nil => exact List.Perm.refl _
  | cons y ys ih =>
    by_cases h : distBefore x y
    · simp [insertByDist, h]
    · simp only [insertByDist, h, if_false]
      exact (ih.cons y).trans (List.Perm.swap x y ys)

theorem sortByDist_perm (l : List (Nat × ℚ)) : (sortByDist l).Perm l := by
  induction l with
  | nil => exact List.Perm.refl _
  | cons x xs ih => exact (insertByDist_perm x (sortByDist xs)).trans (ih.cons x)

theorem length_distList (v : List (List ℚ)) (q : List ℚ) :
    (distList v q).length = v.length := by
  simp [distList]

theorem fst_lt_of_mem_distList {v : List (List ℚ)} {q : List ℚ} {p : Nat × ℚ}
    (h : p ∈ distList v q) : p.1 < v.length := by
  simp only [distList, List.mem_map, List.mem_range] at h
  obtain ⟨i, hi, rfl⟩ := h
  exact hi

theorem filterMap_length_of_all_some {α β : Type} (f : α → Option β) (l : List α)
    (h : ∀ a ∈ l, (f a).isSome) : (l.filterMap f).length = l.length := by
  induction l with
  | nil => rfl
  | cons x xs ih =>
    have hx := h x (List.mem_cons_self x xs)
    obtain ⟨b, hb⟩ := Option.isSome_iff_exists.1 hx
    rw [List.filterMap_cons, hb, List.length_cons,
      ih fun a ha => h a (List.mem_cons_of_mem x ha), List.length_cons]

/-! ### Helper lemmas about the pipeline's source/confidence loop -/

theorem foldl_sourcesStep (l : List (Document × ℚ)) : ∀ acc c,
    l.foldl sourcesStep (acc, c) =
      (dedupAccum acc (l.map fun ds => getSource ds.1), c + (l.map (·.2)).sum) := by
  induction l with
  | nil => intro acc c; simp [dedupAccum]
  | cons x xs ih =>
    intro acc c
    simp only [List.foldl_cons, sourcesStep, ih, List.map_cons, dedupAccum,
      List.sum_cons]
    rw [add_assoc]

theorem dedupFirstSeen_nil : dedupFirstSeen [] = [] := by
  simp [dedupFirstSeen]

theorem dedupFirstSeen_cons (x : String) (xs : List String) :
    dedupFirstSeen (x :: xs) = x :: dedupFirstSeen (xs.filter fun y => y != x) := by
  simp [dedupFirstSeen]

theorem dedupAccum_eq (names : List String) : ∀ acc,
    dedupAccum acc names =
      acc ++ dedupFirstSeen (names.filter fun y => decide (y ∉ acc)) := by
  induction names with
  | nil => intro acc; simp [dedupAccum, dedupFirstSeen]
  | cons x xs ih =>
    intro acc
    by_cases hx : x ∈ acc
    · rw [dedupAccum, if_pos hx, ih, List.filter_cons]
      simp [hx]
    · rw [dedupAccum, if_neg hx, ih, List.filter_cons,
        if_pos (show decide (x ∉ acc) = true from decide_eq_true hx),
        dedupFirstSeen_cons, List.append_assoc]
      have hfil : xs.filter (fun y => decide (y ∉ acc ++ [x])) =
          (xs.filter fun y => decide (y ∉ acc)).filter fun y => y != x := by
        rw [List.filter_filter]
        refine List.filter_congr fun y _ => ?_
        by_cases h1 : y ∈ acc <;> by_cases h2 : y = x <;>
          simp [h1, h2, List.mem_append]
      rw [hfil]
      rfl

theorem dedupAccum_nil (names : List String) :
    dedupAccum [] names = dedupFirstSeen names := by
  rw [dedupAccum_eq]
  have : names.filter (fun y => decide (y ∉ ([] : List String))) = names := by
    refine List.filter_congr ?_ |>.trans (List.filter_true names)
    intro y _
    simp
  rw [this, List.nil_append]

/-- The grounded path of `RAGPipeline.query`, in closed form: when threshold
retrieval returns a non-empty list, the answer is the grounded generation,
the sources are the first-seen de-duplicated source metadata, and the
confidence is the mean score. -/
theorem query_grounded_eq (p : RAGPipeline) (embed : EmbedFn) (q : String)
    (hist : List ChatMsg) (tk : Nat) (docs : List (Document × ℚ))
    (hret : p.retriever.retrieveWithThreshold embed q p.use_rag_threshold (some tk) =
      .ok docs)
    (hne : docs ≠ []) :
    p.query embed q hist true tk = .ok
      (⟨p.generator.generate q docs hist,
        dedupFirstSeen (docs.map fun ds => getSource ds.1),
        (docs.map (·.2)).sum / (docs.length : ℚ)⟩, [.grounded]) := by
  have hemp : docs.isEmpty = false := List.isEmpty_eq_false.2 hne
  simp only [RAGPipeline.query, Bool.true_eq_false, if_false, hret, hemp,
    Bool.false_eq_true, foldl_sourcesStep, dedupAccum_nil, zero_add]

theorem scores_ge_of_retrieveWithThreshold {r : Retriever} {embed : EmbedFn}
    {q : String} {t : ℚ} {k : Option Nat} {docs : List (Document × ℚ)}
    (hret : r.retrieveWithThreshold embed q t k = .ok docs) :
    ∀ ds ∈ docs, t ≤ ds.2 := by
  intro ds hds
  rcases hr : r.retrieve embed q k with e | l
  · rw [Retriever.retrieveWithThreshold, hr] at hret
    exact absurd hret (by simp)
  · rw [Retriever.retrieveWithThreshold, hr] at hret
    have : docs = l.filter fun x => decide (t ≤ x.2) := by
      injection hret with h
      exact h.symm
    rw [this] at hds
    have hmem := List.of_mem_filter hds
    exact of_decide_eq_true hmem

theorem mul_length_le_sum (l : List ℚ) (t : ℚ) (h : ∀ x ∈ l, t ≤ x) :
    t * l.length ≤ l.sum := by
  induction l with
  | nil => simp
  | cons x xs ih =>
    have hx := h x (List.mem_cons_self x xs)
    have hxs := ih fun y hy => h y (List.mem_cons_of_mem x hy)
    rw [List.length_cons, List.sum_cons]
    push_cast
    have hexp : t * ((xs.length : ℚ) + 1) = t * xs.length + t := by ring
    rw [hexp]
    linarith

/-- C1. With `use_rag = true` and an index containing zero documents,
`RAGPipeline.query` returns confidence `0`, an empty sources list, and the
ungrounded generation operation is invoked exactly once (the grounded one not
at all) — for every embedding capability, generator, question, history and
`top_k`. -/
theorem C1_empty_index_fallback (p : RAGPipeline) (embed : EmbedFn) (q : String)
    (hist : List ChatMsg) (tk : Nat) (h : p.retriever.vectorstore.vectors = []) :
    p.query embed q hist true tk =
      .ok (⟨p.generator.generateWithoutContext q hist, [], 0⟩, [.ungrounded]) := by
  simp [RAGPipeline.query, Retriever.retrieveWithThreshold, Retriever.retrieve,
    FAISSVectorStore.similaritySearch, FAISSVectorStore.ntotal, h]

/-- Witness for C1 at a concrete empty index, failing embedder and echo
generator. -/
theorem C1_empty_index_fallback_witness :
    pipeEmpty.retriever.vectorstore.vectors = [] ∧
    pipeEmpty.query embedFail "anything" [] true 3 =
      .ok (⟨"anything", [], 0⟩, [.ungrounded]) :=
  ⟨rfl, C1_empty_index_fallback pipeEmpty embedFail "anything" [] 3 rfl⟩

/-- C5. `retrieve_with_threshold` returns exactly the retrieved elements
whose score is at least the threshold, in order; for `t2 ≤ t1` the result for
`t1` is a subsequence of the result for `t2`. -/
theorem C5_threshold_filter_monotone (r : Retriever) (embed : EmbedFn) (q : String)
    (t1 t2 : ℚ) (k : Option Nat) (l : List (Document × ℚ))
    (hret : r.retrieve embed q k = .ok l) (ht : t2 ≤ t1) :
    r.retrieveWithThreshold embed q t1 k = .ok (l.filter fun ds => decide (t1 ≤ ds.2)) ∧
    r.retrieveWithThreshold embed q t2 k = .ok (l.filter fun ds => decide (t2 ≤ ds.2)) ∧
    (l.filter fun ds => decide (t1 ≤ ds.2)).Sublist
      (l.filter fun ds => decide (t2 ≤ ds.2)) := by
  refine ⟨?_, ?_, ?_⟩
  · simp [Retriever.retrieveWithThreshold, hret]
  · simp [Retriever.retrieveWithThreshold, hret]
  · exact List.monotone_filter_right l fun a ha => by
      rw [decide_eq_true_eq] at ha ⊢
      exact le_trans ht ha

/-- Witness for C5 at a concrete two-document index with thresholds `1/2` and
`0`. -/
theorem C5_threshold_filter_monotone_witness :
    retrW.retrieve embedW "q" none = .ok [(docA, 1), (docB, 1/5)] ∧
    (0 : ℚ) ≤ 1/2 ∧
    (retrW.retrieveWithThreshold embedW "q" (1/2) none =
        .ok ([(docA, 1), (docB, 1/5)].filter fun ds => decide ((1:ℚ)/2 ≤ ds.2)) ∧
      retrW.retrieveWithThreshold embedW "q" 0 none =
        .ok ([(docA, 1), (docB, 1/5)].filter fun ds => decide ((0:ℚ) ≤ ds.2)) ∧
      ([(docA, 1), (docB, 1/5)].filter fun ds => decide ((1:ℚ)/2 ≤ ds.2)).Sublist
        ([(docA, 1), (docB, 1/5)].filter fun ds => decide ((0:ℚ) ≤ ds.2))) := by
  have hret : retrW.retrieve embedW "q" none = .ok [(docA, 1), (docB, 1/5)] := by
    norm_num [Retriever.retrieve, FAISSVectorStore.similaritySearch,
      FAISSVectorStore.ntotal, pyOrNat, retrW, storeW, embedW, faissSearch, distList,
      sortByDist, insertByDist, distBefore, sqDist, List.range_succ, docA, docB,
      List.filterMap_cons, List.filterMap_nil]
  exact ⟨hret, by norm_num,
    C5_threshold_filter_monotone retrW embedW "q" (1/2) 0 none _ hret (by norm_num)⟩

/-- C8 (code bug witness).  When the generation backend fails, the
source's `OpenAILLM.generate` catches the failure and returns the literal
string `"Ошибка при генерации ответа: ..."`, and `Generator.generate` hands
it to the caller as if it were a normal answer: the return type is a bare
string, with no structured failure channel. -/
theorem C8_error_string_returned_as_answer :
    Generator.generate
      ⟨fun prompt hist _ => openAIGenerate (fun _ => .error "boom") prompt hist⟩
      "q" [(docA, 1)] [] = "Ошибка при генерации ответа: boom" := rfl

/-- C9 counterexample.  With a non-empty index and an embedding backend
that fails during retrieval, `RAGPipeline.query` propagates the failure to
the caller instead of degrading to the ungrounded path: the caller does not
receive a normal answer. -/
theorem C9_embedding_failure_propagates_counterexample :
    pipeW.query embedFail "q" [] true 3 = .error "embedding backend failure" := rfl

/-- C9 (amended).  If the embedding backend fails during the retrieval
step and the index is non-empty, `RAGPipeline.query` propagates that failure
to the caller; the ungrounded degradation happens only when the index is
empty, in which case the embedding step is never reached (see C1). -/
theorem C9_amended_embedding_failure_propagates (p : RAGPipeline) (embed : EmbedFn)
    (q : String) (hist : List ChatMsg) (tk : Nat) (e : String)
    (hne : p.retriever.vectorstore.vectors ≠ []) (hemb : embed q = .error e) :
    p.query embed q hist true tk = .error e := by
  simp [RAGPipeline.query, Retriever.retrieveWithThreshold, Retriever.retrieve,
    FAISSVectorStore.similaritySearch, FAISSVectorStore.ntotal,
    List.length_eq_zero, hne, hemb]

/-- Witness for the amended C9 at the concrete two-document index. -/
theorem C9_amended_embedding_failure_propagates_witness :
    pipeW.retriever.vectorstore.vectors ≠ [] ∧
    embedFail "q" = .error "embedding backend failure" ∧
    pipeW.query embedFail "q" [] true 3 = .error "embedding backend failure" :=
  ⟨by decide, rfl,
    C9_amended_embedding_failure_propagates pipeW embedFail "q" [] 3 _ (by decide) rfl⟩

/-- C4.  For every index state (with its stored documents parallel to its
vectors) and every requested `k`, `similarity_search` does not fail when the
query embedding succeeds: it returns a result of length `min k ntotal` (so a
`k` exceeding the index size is clamped to the index size), and on an empty
index the result is the empty sequence. -/
theorem C4_search_clamps_k_and_never_fails (s : FAISSVectorStore) (embed : EmbedFn)
    (q : String) (k : Nat) (v : List ℚ)
    (hlen : s.documents.length = s.vectors.length) (hemb : embed q = .ok v) :
    ∃ l, s.similaritySearch embed q k = .ok l ∧ l.length = min k s.ntotal ∧
      (s.ntotal = 0 → l = []) := by
  by_cases h0 : s.ntotal = 0
  · exact ⟨[], by simp [FAISSVectorStore.similaritySearch, h0], by simp [h0],
      fun _ => rfl⟩
  · have hss : s.similaritySearch embed q k =
        .ok ((faissSearch s.vectors v (min k s.ntotal)).filterMap fun p =>
          match s.documents.get? p.1 with
          | some doc => some (doc, 1 / (1 + p.2))
          | none => none) := by
      simp [FAISSVectorStore.similaritySearch, h0, hemb]
    refine ⟨_, hss, ?_, fun h => absurd h h0⟩
    rw [filterMap_length_of_all_some]
    · rw [faissSearch, List.length_take, (sortByDist_perm _).length_eq,
        length_distList]
      simp only [FAISSVectorStore.ntotal]
      omega
    · intro p hp
      have hmem : p ∈ distList s.vectors v :=
        ((sortByDist_perm _).mem_iff).1 (List.mem_of_mem_take hp)
      have hidx : p.1 < s.documents.length := by
        rw [hlen]; exact fst_lt_of_mem_distList hmem
      rw [List.get?_eq_get hidx]
      rfl

/-- Witness for C4: two stored documents, `k = 5` clamped to `2`. -/
theorem C4_search_clamps_k_and_never_fails_witness :
    storeW.documents.length = storeW.vectors.length ∧
    embedW "q" = .ok [0] ∧
    (∃ l, storeW.similaritySearch embedW "q" 5 = .ok l ∧
      l.length = min 5 storeW.ntotal ∧ (storeW.ntotal = 0 → l = [])) :=
  ⟨rfl, rfl, C4_search_clamps_k_and_never_fails storeW embedW "q" 5 [0] rfl rfl⟩

/-- C6.  With `use_rag = true`, whenever threshold retrieval returns a
non-empty document list, `RAGPipeline.query` takes the grounded path exactly
once, its confidence is the arithmetic mean of the retrieved scores, and its
sources are the de-duplicated source metadata values in first-seen order. -/
theorem C6_grounded_mean_confidence_and_sources (p : RAGPipeline) (embed : EmbedFn)
    (q : String) (hist : List ChatMsg) (tk : Nat) (docs : List (Document × ℚ))
    (hret : p.retriever.retrieveWithThreshold embed q p.use_rag_threshold (some tk) =
      .ok docs)
    (hne : docs ≠ []) :
    p.query embed q hist true tk = .ok
      (⟨p.generator.generate q docs hist,
        dedupFirstSeen (docs.map fun ds => getSource ds.1),
        (docs.map (·.2)).sum / (docs.length : ℚ)⟩, [.grounded]) :=
  query_grounded_eq p embed q hist tk docs hret hne

/-- Witness for C6 at the concrete two-document index; only `docA` passes the
`1/2` threshold, so the sources are `["python.txt"]` and the confidence is
the mean of the single score `1`. -/
theorem C6_grounded_mean_confidence_and_sources_witness :
    pipeC.retriever.retrieveWithThreshold embedW "q" pipeC.use_rag_threshold (some 3) =
      .ok [(docA, 1)] ∧
    pipeC.query embedW "q" [] true 3 = .ok
      (⟨pipeC.generator.generate "q" [(docA, 1)] [],
        dedupFirstSeen ([(docA, 1)].map fun ds => getSource ds.1),
        (([(docA, 1)].map (·.2)).sum / (([(docA, 1)] : List (Document × ℚ)).length : ℚ))⟩,
      [.grounded]) := by
  have hret : pipeC.retriever.retrieveWithThreshold embedW "q" pipeC.use_rag_threshold
      (some 3) = .ok [(docA, 1)] := by
    norm_num [Retriever.retrieveWithThreshold, Retriever.retrieve,
      FAISSVectorStore.similaritySearch, FAISSVectorStore.ntotal, pyOrNat, pipeC,
      retrW, storeW, embedW, faissSearch, distList, sortByDist, insertByDist,
      distBefore, sqDist, List.range_succ, docA, docB, List.filterMap_cons,
      List.filterMap_nil, List.filter_cons]
  exact ⟨hret,
    C6_grounded_mean_confidence_and_sources pipeC embedW "q" [] 3 [(docA, 1)] hret
      (by simp)⟩

/-- C10.  On the grounded path (non-empty threshold retrieval with
`use_rag = true`), the returned confidence is at least the pipeline's
configured `use_rag_threshold`: every contributing score passed the
`score ≥ threshold` filter, so their mean cannot fall below it. -/
theorem C10_grounded_confidence_ge_threshold (p : RAGPipeline) (embed : EmbedFn)
    (q : String) (hist : List ChatMsg) (tk : Nat) (docs : List (Document × ℚ))
    (resp : RAGResponse) (calls : List GenCall)
    (hret : p.retriever.retrieveWithThreshold embed q p.use_rag_threshold (some tk) =
      .ok docs)
    (hne : docs ≠ [])
    (hq : p.query embed q hist true tk = .ok (resp, calls)) :
    p.use_rag_threshold ≤ resp.confidence := by
  rw [query_grounded_eq p embed q hist tk docs hret hne] at hq
  have hresp : resp = ⟨p.generator.generate q docs hist,
      dedupFirstSeen (docs.map fun ds => getSource ds.1),
      (docs.map (·.2)).sum / (docs.length : ℚ)⟩ := by
    injection hq with h
    exact (congrArg Prod.fst h).symm
  rw [hresp]
  have hlen : (0 : ℚ) < (docs.length : ℚ) := by
    rw [Nat.cast_pos]
    exact List.length_pos.2 hne
  rw [show (⟨p.generator.generate q docs hist,
      dedupFirstSeen (docs.map fun ds => getSource ds.1),
      (docs.map (·.2)).sum / (docs.length : ℚ)⟩ : RAGResponse).confidence =
      (docs.map (·.2)).sum / (docs.length : ℚ) from rfl]
  rw [le_div_iff₀ hlen]
  have hsc := scores_ge_of_retrieveWithThreshold hret
  have := mul_length_le_sum (docs.map (·.2)) p.use_rag_threshold ?_
  · rw [List.length_map] at this
    exact this
  · intro x hx
    obtain ⟨ds, hds, rfl⟩ := List.mem_map.1 hx
    exact hsc ds hds

/-- Witness for C10: the single contributing score is `1`, the threshold is
`1/2`, and the returned confidence is their mean `1 ≥ 1/2`. -/
theorem C10_grounded_confidence_ge_threshold_witness :
    pipeC.retriever.retrieveWithThreshold embedW "q" pipeC.use_rag_threshold (some 3) =
      .ok [(docA, 1)] ∧
    pipeC.query embedW "q" [] true 3 = .ok
      (⟨"ответ", ["python.txt"], 1⟩, [.grounded]) ∧
    pipeC.use_rag_threshold ≤ (⟨"ответ", ["python.txt"], 1⟩ : RAGResponse).confidence := by
  have hret : pipeC.retriever.retrieveWithThreshold embedW "q" pipeC.use_rag_threshold
      (some 3) = .ok [(docA, 1)] := by
    norm_num [Retriever.retrieveWithThreshold, Retriever.retrieve,
      FAISSVectorStore.similaritySearch, FAISSVectorStore.ntotal, pyOrNat, pipeC,
      retrW, storeW, embedW, faissSearch, distList, sortByDist, insertByDist,
      distBefore, sqDist, List.range_succ, docA, docB, List.filterMap_cons,
      List.filterMap_nil, List.filter_cons]
  have hq : pipeC.query embedW "q" [] true 3 = .ok
      (⟨"ответ", ["python.txt"], 1⟩, [.grounded]) := by
    have h := query_grounded_eq pipeC embedW "q" [] 3 [(docA, 1)] hret (by simp)
    rw [h]
    norm_num [Generator.generate, genConst, pipeC, dedupFirstSeen_cons,
      dedupFirstSeen_nil, getSource, docA, List.lookup]
  exact ⟨hret, hq,
    C10_grounded_confidence_ge_threshold pipeC embedW "q" [] 3 [(docA, 1)]
      ⟨"ответ", ["python.txt"], 1⟩ [.grounded] hret (by simp) hq⟩

/-! ### Helper lemmas about the tenant registry -/

theorem lookup_after_initTenant (m : RAGManager) (disk : TenantDisk) (tid : String)
    (force : Bool) :
    (initTenant m disk tid force).2.1.pipelines.lookup tid =
      some (initTenant m disk tid force).1 := by
  rcases hl : m.pipelines.lookup tid with _ | p <;> cases force <;>
    simp [initTenant, hl, List.lookup]

theorem initTenant_cached (m : RAGManager) (disk : TenantDisk) (tid : String)
    (p : TenantPipeline) (hl : m.pipelines.lookup tid = some p) :
    initTenant m disk tid false = (p, m, disk) := by
  simp [initTenant, hl]

theorem initTenant_force (m : RAGManager) (disk : TenantDisk) (tid : String) :
    initTenant m disk tid true =
      (⟨m.nextId, (initVectorstore disk).1⟩,
        ⟨(tid, ⟨m.nextId, (initVectorstore disk).1⟩) ::
          m.pipelines.filter (fun kv => !(kv.1 == tid)), m.nextId + 1⟩,
        (initVectorstore disk).2) := by
  rcases hl : m.pipelines.lookup tid with _ | p <;> simp [initTenant, hl]

/-- C7 counterexample.  Initialize tenant `"t1"` whose documents
directory holds `d1` (the built index is persisted); drop a new file `d2`
into the directory; the second `initialize` returns the cached pipeline (the
idempotent half of the claim holds) — but after an explicit reload the
pipeline is rebuilt from the persisted index and still indexes only `d1`:
the ingestion performed between the two calls is *not* reflected after the
explicit reload. -/
theorem C7_reload_shadowed_by_persisted_index_counterexample :
    (initTenant ((initTenant ⟨[], 0⟩ ⟨none, ["d1"]⟩ "t1" false).2.1)
        (addDocFile (initTenant ⟨[], 0⟩ ⟨none, ["d1"]⟩ "t1" false).2.2 "d2")
        "t1" false).1 =
      (initTenant ⟨[], 0⟩ ⟨none, ["d1"]⟩ "t1" false).1 ∧
    (addDocFile (initTenant ⟨[], 0⟩ ⟨none, ["d1"]⟩ "t1" false).2.2 "d2").docFiles =
      ["d1", "d2"] ∧
    (reloadTenant ((initTenant ⟨[], 0⟩ ⟨none, ["d1"]⟩ "t1" false).2.1)
        (addDocFile (initTenant ⟨[], 0⟩ ⟨none, ["d1"]⟩ "t1" false).2.2 "d2")
        "t1").1.indexedDocs = ["d1"] ∧
    (reloadTenant ((initTenant ⟨[], 0⟩ ⟨none, ["d1"]⟩ "t1" false).2.1)
        (addDocFile (initTenant ⟨[], 0⟩ ⟨none, ["d1"]⟩ "t1" false).2.2 "d2")
        "t1").1.indexedDocs ≠ ["d1", "d2"] := by
  refine ⟨rfl, rfl, rfl, ?_⟩
  decide

/-- C7 (amended).  Calling `initialize_tenant` a second time without
`force_reload` returns the identical pipeline instance and leaves the
registry and the disk unchanged, so ingestion between the two calls is not
reflected by the second call; after an explicit reload the pipeline is
rebuilt from the persisted index when one exists, and from the current
documents directory only when none does. -/
theorem C7_amended_idempotent_and_reload (m : RAGManager) (disk : TenantDisk)
    (tid f : String) :
    (initTenant (initTenant m disk tid false).2.1
        (addDocFile (initTenant m disk tid false).2.2 f) tid false).1 =
      (initTenant m disk tid false).1 ∧
    (initTenant (initTenant m disk tid false).2.1
        (addDocFile (initTenant m disk tid false).2.2 f) tid false).2.1 =
      (initTenant m disk tid false).2.1 ∧
    (initTenant (initTenant m disk tid false).2.1
        (addDocFile (initTenant m disk tid false).2.2 f) tid false).2.2 =
      addDocFile (initTenant m disk tid false).2.2 f ∧
    (reloadTenant (initTenant m disk tid false).2.1
        (addDocFile (initTenant m disk tid false).2.2 f) tid).1.indexedDocs =
      (match (addDocFile (initTenant m disk tid false).2.2 f).savedIndex with
        | some saved => saved
        | none => (addDocFile (initTenant m disk tid false).2.2 f).docFiles) := by
  have h1 := lookup_after_initTenant m disk tid false
  have h2 := initTenant_cached (initTenant m disk tid false).2.1
    (addDocFile (initTenant m disk tid false).2.2 f) tid
    (initTenant m disk tid false).1 h1
  refine ⟨by rw [h2], by rw [h2], by rw [h2], ?_⟩
  rw [reloadTenant, initTenant_force]
  rcases hs : (addDocFile (initTenant m disk tid false).2.2 f).savedIndex with _ | saved
  · have hne : (addDocFile (initTenant m disk tid false).2.2 f).docFiles ≠ [] := by
      simp [addDocFile]
    simp [initVectorstore, hs, hne]
  · simp [initVectorstore, hs]

/-! ### Helper lemmas about the chunking loop -/

theorem neg_one_le_rfind (s : PyStr) (c : Char) : -1 ≤ rfind s c := by
  induction s with
  | nil => simp [rfind]
  | cons x xs ih =>
    simp only [rfind]
    by_cases h : (0 : Int) ≤ rfind xs c
    · rw [if_pos h]; omega
    · rw [if_neg h]
      by_cases hx : x = c
      · rw [if_pos hx]; omega
      · rw [if_neg hx]

theorem rfind_lt_length (s : PyStr) (c : Char) : rfind s c < (s.length : Int) := by
  induction s with
  | nil => simp [rfind]
  | cons x xs ih =>
    simp only [rfind, List.length_cons]
    by_cases h : (0 : Int) ≤ rfind xs c
    · rw [if_pos h]; push_cast; omega
    · rw [if_neg h]
      by_cases hx : x = c
      · rw [if_pos hx]; positivity
      · rw [if_neg hx]
        have : (0 : Int) ≤ (xs.length : Int) := by positivity
        push_cast
        omega

theorem take_clamp (t : List Char) (n : Nat) : t.take (min n t.length) = t.take n := by
  rcases le_total n t.length with h | h
  · rw [min_eq_left h]
  · rw [min_eq_right h, List.take_length, List.take_of_length_le h]

theorem drop_clamp (X : List Char) (a len : Nat) (hX : X.length ≤ len) :
    X.drop (min a len) = X.drop a := by
  rcases le_total a len with h | h
  · rw [min_eq_left h]
  · rw [min_eq_right h, List.drop_eq_nil_of_le hX,
      List.drop_eq_nil_of_le (le_trans hX h)]

theorem pySlice_nonneg (t : PyStr) (a b : Int) (ha : 0 ≤ a) (hb : 0 ≤ b) :
    pySlice t a b = (t.take b.toNat).drop a.toNat := by
  unfold pySlice sliceIdx
  rw [if_neg (not_lt.2 ha), if_neg (not_lt.2 hb)]
  rw [drop_clamp _ _ _ (by rw [List.length_take]; omega), take_clamp]

/-- The window built by one iteration of the chunking loop, in closed form:
it is `text[start : start+m]` for some window length `m` that is either the
full `chunk_size` or a sentence-boundary truncation strictly past the
midpoint, and the recorded `end` is `start + m`. -/
theorem chunkWindow_spec (t : PyStr) (cs : Nat) (start : Int) (hcs : 0 < cs)
    (h0 : 0 ≤ start) (hlt : start < (t.length : Int)) :
    ∃ m : Nat, chunkWindow t cs start = ((t.drop start.toNat).take m, start + m) ∧
      (m = cs ∨ (cs / 2 + 2 ≤ m ∧ m ≤ cs)) := by
  have hsi : start = (start.toNat : Int) := (Int.toNat_of_nonneg h0).symm
  have hchunk : pySlice t start (start + cs) = (t.drop start.toNat).take cs := by
    rw [pySlice_nonneg t start (start + cs) h0 (by omega)]
    have h1 : (start + (cs : Int)).toNat = start.toNat + cs := by omega
    rw [h1, List.drop_take]
    congr 1
    omega
  simp only [chunkWindow]
  by_cases hend : start + (cs : Int) < (t.length : Int)
  · rw [if_pos hend]
    have hlen_ch : (pySlice t start (start + cs)).length = cs := by
      rw [hchunk, List.length_take, List.length_drop]
      have : start.toNat + cs < t.length := by omega
      omega
    have h1 := rfind_lt_length (pySlice t start (start + cs)) '.'
    have h2 := rfind_lt_length (pySlice t start (start + cs)) '\n'
    rw [hlen_ch] at h1 h2
    have hn1 := neg_one_le_rfind (pySlice t start (start + cs)) '.'
    by_cases hmid :
        max (rfind (pySlice t start (start + cs)) '.')
          (rfind (pySlice t start (start + cs)) '\n') > ((cs / 2 : Nat) : Int)
    · rw [if_pos hmid]
      set sp := max (rfind (pySlice t start (start + cs)) '.')
        (rfind (pySlice t start (start + cs)) '\n') with hsp
      have hsp_lt : sp < (cs : Int) := max_lt h1 h2
      have hsp0 : 0 ≤ sp := by omega
      refine ⟨(sp + 1).toNat, ?_, Or.inr ⟨by omega, by omega⟩⟩
      rw [Prod.mk.injEq]
      constructor
      · rw [pySlice_nonneg _ 0 (sp + 1) le_rfl (by omega), Int.toNat_zero,
          List.drop_zero, hchunk, List.take_take]
        congr 1
        omega
      · omega
    · rw [if_neg hmid]
      exact ⟨cs, by rw [hchunk], Or.inl rfl⟩
  · rw [if_neg hend]
    exact ⟨cs, by rw [hchunk], Or.inl rfl⟩

/-- The chunking loop and its instrumented variant compute the same chunks:
the loop's output is the `strip` of each recorded raw window. -/
theorem chunkTextAux_eq_raw (t : PyStr) (cs ov : Nat) :
    ∀ (fuel : Nat) (start : Int), chunkTextAux t cs ov fuel start =
      (chunkRawAux t cs ov fuel start).map (List.map fun w => pyStrip w.1) := by
  intro fuel
  induction fuel with
  | zero => intro start; rfl
  | succ n ih =>
    intro start
    simp only [chunkTextAux, chunkRawAux]
    by_cases h : start < (t.length : Int)
    · rw [if_pos h, if_pos h, ih]
      cases hrec : chunkRawAux t cs ov n ((chunkWindow t cs start).2 - ov) with
      | none => rfl
      | some rest => rfl
    · rw [if_neg h, if_neg h]; rfl

/-- One unfolding step of the instrumented chunking loop. -/
theorem chunkRawAux_succ (t : PyStr) (cs ov n : Nat) (start : Int) :
    chunkRawAux t cs ov (n + 1) start =
      if start < (t.length : Int) then
        match chunkRawAux t cs ov n ((chunkWindow t cs start).2 - ov) with
        | none => none
        | some rest => some (chunkWindow t cs start :: rest)
      else some [] := rfl

/-- Termination of the chunking loop under `overlap < chunk_size` and
`overlap ≤ chunk_size/2 + 1`: with the cursor at `start ≥ 0` and
`fuel ≥ length - start` iterations of budget, the loop finishes. -/
theorem chunkRawAux_isSome (t : PyStr) (cs ov : Nat) (h1 : ov < cs)
    (h2 : ov ≤ cs / 2 + 1) :
    ∀ (fuel : Nat) (start : Int), 0 ≤ start → (t.length : Int) ≤ start + fuel →
      (chunkRawAux t cs ov (fuel + 1) start).isSome := by
  intro fuel
  induction fuel with
  | zero =>
    intro start h0 hle
    rw [chunkRawAux_succ, if_neg (by omega)]
    rfl
  | succ n ih =>
    intro start h0 hle
    rw [chunkRawAux_succ]
    by_cases h : start < (t.length : Int)
    · rw [if_pos h]
      obtain ⟨m, hw, hm⟩ := chunkWindow_spec t cs start (by omega) h0 h
      have hw2 : (chunkWindow t cs start).2 = start + m := by rw [hw]
      have hovm : ov < m := by rcases hm with rfl | ⟨hm1, hm2⟩ <;> omega
      rw [hw2]
      have hs := ih (start + m - ov) (by omega) (by omega)
      obtain ⟨rest, hrest⟩ := Option.isSome_iff_exists.1 hs
      rw [hrest]
      rfl
    · rw [if_neg h]; rfl

/-- Reconstruction invariant for the tail of the chunk list: the raw windows
recorded from cursor `start`, each with its first `overlap` characters
removed, concatenate to `text[start+overlap:]`. -/
theorem chunkRawAux_joinTail (t : PyStr) (cs ov : Nat) (h1 : ov < cs)
    (h2 : ov ≤ cs / 2 + 1) :
    ∀ (fuel : Nat) (start : Int) (raw : List (PyStr × Int)), 0 ≤ start →
      chunkRawAux t cs ov fuel start = some raw →
      ((raw.map Prod.fst).map (List.drop ov)).flatten = t.drop (start.toNat + ov) := by
  intro fuel
  induction fuel with
  | zero => intro start raw h0 hr; exact absurd hr (by simp [chunkRawAux])
  | succ n ih =>
    intro start raw h0 hr
    rw [chunkRawAux_succ] at hr
    by_cases h : start < (t.length : Int)
    · rw [if_pos h] at hr
      obtain ⟨m, hw, hm⟩ := chunkWindow_spec t cs start (by omega) h0 h
      have hw1 : (chunkWindow t cs start).1 = (t.drop start.toNat).take m := by rw [hw]
      have hw2 : (chunkWindow t cs start).2 = start + m := by rw [hw]
      have hovm : ov < m := by rcases hm with rfl | ⟨hm1, hm2⟩ <;> omega
      rw [hw2] at hr
      cases hrec : chunkRawAux t cs ov n (start + m - ov) with
      | none => simp [hrec] at hr
      | some rest =>
        simp only [hrec, Option.some.injEq] at hr
        subst hr
        have hrest := ih (start + m - ov) rest (by omega) hrec
        simp only [List.map_cons, List.flatten_cons, hw1, hrest]
        have htn : ((start + (m : Int)) - ov).toNat + ov = start.toNat + m := by omega
        rw [htn, List.drop_take, List.drop_drop]
        have hdd : t.drop (start.toNat + m) =
            (t.drop (start.toNat + ov)).drop (m - ov) := by
          rw [List.drop_drop]
          congr 1
          omega
        rw [hdd, List.take_append_drop]
    · rw [if_neg h] at hr
      simp only [Option.some.injEq] at hr
      subst hr
      simp only [List.map_nil, List.flatten_nil]
      rw [eq_comm, List.drop_eq_nil_of_le (by omega)]

/-- Reconstruction: the raw windows recorded from cursor `start ≥ 0`, joined
with the overlap region removed, are exactly `text[start:]`. -/
theorem chunkRawAux_joinOverlap (t : PyStr) (cs ov : Nat) (h1 : ov < cs)
    (h2 : ov ≤ cs / 2 + 1) :
    ∀ (fuel : Nat) (start : Int) (raw : List (PyStr × Int)), 0 ≤ start →
      chunkRawAux t cs ov fuel start = some raw →
      joinOverlap ov (raw.map Prod.fst) = t.drop start.toNat := by
  intro fuel start raw h0 hr
  cases fuel with
  | zero => exact absurd hr (by simp [chunkRawAux])
  | succ n =>
    rw [chunkRawAux_succ] at hr
    by_cases h : start < (t.length : Int)
    · rw [if_pos h] at hr
      obtain ⟨m, hw, hm⟩ := chunkWindow_spec t cs start (by omega) h0 h
      have hw1 : (chunkWindow t cs start).1 = (t.drop start.toNat).take m := by rw [hw]
      have hw2 : (chunkWindow t cs start).2 = start + m := by rw [hw]
      have hovm : ov < m := by rcases hm with rfl | ⟨hm1, hm2⟩ <;> omega
      rw [hw2] at hr
      cases hrec : chunkRawAux t cs ov n (start + m - ov) with
      | none => simp [hrec] at hr
      | some rest =>
        simp only [hrec, Option.some.injEq] at hr
        subst hr
        have hrest := chunkRawAux_joinTail t cs ov h1 h2 n (start + m - ov) rest
          (by omega) hrec
        simp only [List.map_cons, joinOverlap, hw1, hrest]
        have htn : ((start + (m : Int)) - ov).toNat + ov = start.toNat + m := by omega
        rw [htn]
        have hdd : t.drop (start.toNat + m) = (t.drop start.toNat).drop m := by
          rw [List.drop_drop]
        rw [hdd, List.take_append_drop]
    · rw [if_neg h] at hr
      simp only [Option.some.injEq] at hr
      subst hr
      simp only [List.map_nil, joinOverlap]
      rw [eq_comm, List.drop_eq_nil_of_le (by omega)]

/-- C2 counterexample.  With `chunk_size = 4 > overlap = 0 ≥ 0` and the
text `"ab  cdef"`, `_chunk_text` returns `["ab", "cdef"]` — the interior
double space falls at a chunk boundary and is removed by `chunk.strip()`,
with no sentence-terminating period or newline anywhere in the text — so
concatenating the returned chunks with the overlap removed yields
`"abcdef" ≠ "ab  cdef"`. -/
theorem C2_strip_drops_characters_counterexample :
    chunkText stripText 4 0 = some ["ab".data, "cdef".data] ∧
    joinOverlap 0 ["ab".data, "cdef".data] ≠ stripText := by
  exact ⟨by decide, by decide⟩

/-- C2 (amended).  For `overlap < chunk_size` with
`overlap ≤ chunk_size/2 + 1` (so the loop terminates), the *raw* windows of
`_chunk_text`, concatenated with the first `overlap` characters of each
subsequent window removed, reconstruct the original text exactly — no
character is dropped by the window advance, including at sentence-boundary
truncations; the *returned* chunks are the Python `strip()` of those raw
windows, so reconstruction from the returned value itself loses only the
whitespace stripped at chunk boundaries. -/
theorem C2_amended_raw_windows_reconstruct (text : PyStr) (cs ov : Nat)
    (h1 : ov < cs) (h2 : ov ≤ cs / 2 + 1) :
    ∃ raw, chunkRaw text cs ov = some raw ∧
      joinOverlap ov (raw.map Prod.fst) = text ∧
      chunkText text cs ov = some (raw.map fun w => pyStrip w.1) := by
  have hs := chunkRawAux_isSome text cs ov h1 h2 text.length 0 le_rfl (by omega)
  obtain ⟨raw, hraw⟩ := Option.isSome_iff_exists.1 hs
  refine ⟨raw, hraw, ?_, ?_⟩
  · have hj := chunkRawAux_joinOverlap text cs ov h1 h2 (text.length + 1) 0 raw
      le_rfl hraw
    simpa using hj
  · rw [chunkText, chunkTextAux_eq_raw, hraw]
    rfl

/-- Witness for the amended C2 on a sentence-bearing text with
`chunk_size = 4, overlap = 1`. -/
theorem C2_amended_raw_windows_reconstruct_witness :
    1 < 4 ∧ 1 ≤ 4 / 2 + 1 ∧
    (∃ raw, chunkRaw sentText 4 1 = some raw ∧
      joinOverlap 1 (raw.map Prod.fst) = sentText ∧
      chunkText sentText 4 1 = some (raw.map fun w => pyStrip w.1)) :=
  ⟨by norm_num, by norm_num,
    C2_amended_raw_windows_reconstruct sentText 4 1 (by norm_num) (by norm_num)⟩

/-- One unfolding step of the chunking loop. -/
theorem chunkTextAux_succ (t : PyStr) (cs ov n : Nat) (start : Int) :
    chunkTextAux t cs ov (n + 1) start =
      if start < (t.length : Int) then
        match chunkTextAux t cs ov n ((chunkWindow t cs start).2 - ov) with
        | none => none
        | some rest => some (pyStrip (chunkWindow t cs start).1 :: rest)
      else some [] := rfl

/-- On `loopText = "aaaaaa.aaaa"` with `chunk_size = 10, overlap = 9` the
cursor cycles `0 → -2 → -1 → 0` forever (the sentence split sets
`end = 7`, then `start = 7 - 9 = -2`, and the two empty negative-index
windows walk the cursor back to `0`), so no amount of fuel finishes the
loop. -/
theorem loopText_cycle : ∀ n, chunkTextAux loopText 10 9 n 0 = none ∧
    chunkTextAux loopText 10 9 n (-2) = none ∧
    chunkTextAux loopText 10 9 n (-1) = none := by
  intro n
  induction n with
  | zero => exact ⟨rfl, rfl, rfl⟩
  | succ n ih =>
    refine ⟨?_, ?_, ?_⟩
    · rw [chunkTextAux_succ, if_pos (by decide),
        show (chunkWindow loopText 10 0).2 - ((9 : Nat) : Int) = -2 from by decide,
        ih.2.1]
    · rw [chunkTextAux_succ, if_pos (by decide),
        show (chunkWindow loopText 10 (-2)).2 - ((9 : Nat) : Int) = -1 from by decide,
        ih.2.2]
    · rw [chunkTextAux_succ, if_pos (by decide),
        show (chunkWindow loopText 10 (-1)).2 - ((9 : Nat) : Int) = 0 from by decide,
        ih.1]

/-- C3 counterexample.  With `chunk_size = 10 > overlap = 9 ≥ 0` the
chunking loop does not terminate on `"aaaaaa.aaaa"`: the cursor advance rule
moves the cursor *backwards* (`split_point + 1 - overlap < 0` past a
sentence boundary), and no finite fuel makes the loop finish. -/
theorem C3_nontermination_counterexample :
    chunkText loopText 10 9 = none ∧ ¬ chunkTerminates loopText 10 9 := by
  refine ⟨(loopText_cycle 12).1, ?_⟩
  rintro ⟨fuel, hf⟩
  rw [(loopText_cycle fuel).1] at hf
  simp at hf

/-- C3 (amended).  The chunking loop terminates and returns a finite
chunk sequence whenever `overlap < chunk_size` *and*
`overlap ≤ chunk_size/2 + 1` (this covers the defaults `500/50`); the extra
bound is necessary: past the window midpoint the cursor advances only to
`split_point + 1 - overlap ≥ chunk_size/2 + 2 - overlap`, which is
non-positive for larger overlaps (see the counterexample). -/
theorem C3_amended_terminates (text : PyStr) (cs ov : Nat) (h1 : ov < cs)
    (h2 : ov ≤ cs / 2 + 1) :
    chunkTerminates text cs ov ∧ (chunkText text cs ov).isSome := by
  have hs := chunkRawAux_isSome text cs ov h1 h2 text.length 0 le_rfl (by omega)
  obtain ⟨raw, hraw⟩ := Option.isSome_iff_exists.1 hs
  constructor
  · exact ⟨text.length + 1, by rw [chunkTextAux_eq_raw, hraw]; rfl⟩
  · rw [chunkText, chunkTextAux_eq_raw, hraw]
    rfl

/-- Witness for the amended C3 with `chunk_size = 4, overlap = 0`. -/
theorem C3_amended_terminates_witness :
    0 < 4 ∧ 0 ≤ 4 / 2 + 1 ∧
    (chunkTerminates stripText 4 0 ∧ (chunkText stripText 4 0).isSome) :=
  ⟨by norm_num, by norm_num,
    C3_amended_terminates stripText 4 0 (by norm_num) (by norm_num)⟩

end Qapsula
